import Mathlib

/-!
Shallow embedding of the `logparser` repository (Go):
`internal/logparsercore/logline.go`, `internal/logparsercore/sync_log_writer.go`
and the ingestion driver.

Modelling decisions, stated once:

* `time.Time` instants are modelled by their calendar components as produced by
  `time.Parse("2006-01-02 15:04:05,000", _)`: year, month, day, hour, minute,
  second, millisecond, in UTC.  The instant on the absolute time line is
  recovered by `GoTime.toNs` (nanoseconds since the Unix epoch, using the
  standard civil-calendar day-numbering algorithm); `Before`, `After`, `Equal`
  and `Sub` compare or subtract these instants exactly as Go does.  Go's
  `Time.Sub` saturates at the `int64` range of `time.Duration`; `timeSub`
  models that clamp, and `Duration.Milliseconds` is `int64` division
  truncating toward zero, modelled by `Int.tdiv`.
* The Go zero `time.Time` (January 1, year 1, 00:00:00 UTC) is `zeroGoTime`.
* `float64` arithmetic in `GetAvgStdThreadRuntime` is modelled exactly: the
  sums and divisions over rationals, `math.Sqrt`/`math.Pow` as the real
  square root and squaring.
* The file system is a map from paths to the list of newline-terminated lines
  appended so far; `os.File` handles are the pair (path, open flag) carried in
  the thread metadata, and a write through a closed (`nil`) handle fails with
  Go's `os.ErrInvalid` ("invalid argument") without writing, as in Go.  Paths
  are the cleaned paths `filepath.Join` stores and opens: `goPathClean`
  embeds Go's `path.Clean`, so ids containing `/`, `.` or `..` denote the
  same model path exactly when they denote the same real file.
* Go's `map[string]*threadFileMetadata` is an association list whose keys are
  kept unique by the operations themselves; map iteration order is the list
  order (Go's order is unspecified, and every theorem below that depends on a
  choice of order only claims existence).
* `time.Parse` with layout `"2006-01-02 15:04:05,000"` is modelled for
  zero-padded component widths (the widths the layout prints); Go additionally
  accepts a one-digit hour, which no claim exercises.  Both `,` and `.` are
  accepted as the fractional-second separator, as in Go, and exactly three
  fractional digits are required by the `,000` layout element.
-/

/-- Civil-calendar day number of a date (days since 1970-01-01), the standard
days-from-civil algorithm; used to place a parsed UTC timestamp on the
absolute time line, as Go's `time` package does internally. -/
def daysFromCivil (y m d : Int) : Int :=
  let y2 : Int := if m ≤ 2 then y - 1 else y
  let era : Int := Int.ediv y2 400
  let yoe : Int := y2 - era * 400
  let doy : Int := Int.ediv (153 * (m + (if 2 < m then -3 else 9)) + 2) 5 + d - 1
  let doe : Int := yoe * 365 + Int.ediv yoe 4 - Int.ediv yoe 100 + doy
  era * 146097 + doe - 719468

/-- A `time.Time` instant as parsed by `time.Parse("2006-01-02 15:04:05,000", _)`:
UTC calendar components with millisecond precision. -/
structure GoTime where
  year : Int
  month : Int
  day : Int
  hour : Int
  minute : Int
  second : Int
  millis : Int
deriving DecidableEq

/-- The instant of a `GoTime` in nanoseconds since the Unix epoch. -/
def GoTime.toNs (t : GoTime) : Int :=
  (daysFromCivil t.year t.month t.day * 86400
    + t.hour * 3600 + t.minute * 60 + t.second) * 1000000000
  + t.millis * 1000000

/-- Go's zero `time.Time`: January 1, year 1, 00:00:00 UTC. -/
def zeroGoTime : GoTime := ⟨1, 1, 1, 0, 0, 0, 0⟩

/-- Largest `int64` value (upper bound of `time.Duration`). -/
def maxInt64 : Int := 9223372036854775807

/-- Smallest `int64` value (lower bound of `time.Duration`). -/
def minInt64 : Int := -9223372036854775808

/-- Go `a.Sub(b)` for `time.Time`: the difference of the instants in nanoseconds,
saturating at the `int64` range of `time.Duration`, as documented for Go. -/
def timeSub (a b : GoTime) : Int :=
  let d : Int := a.toNs - b.toNs
  if d > maxInt64 then maxInt64 else if d < minInt64 then minInt64 else d

/-- Go `Duration.Milliseconds()`: `int64` division by 10^6, truncating toward
zero (Go integer division), modelled by `Int.tdiv`. -/
def durationMilliseconds (d : Int) : Int := Int.tdiv d 1000000

/-- Numeric value of a list of decimal digit characters. -/
def digitsVal (cs : List Char) : Int :=
  cs.foldl (fun a c => a * 10 + ((c.toNat : Int) - 48)) 0

/-- Whether a year is a leap year (Gregorian rule), as Go's `time` package. -/
def isLeapYear (y : Int) : Prop := y % 4 = 0 ∧ (y % 100 ≠ 0 ∨ y % 400 = 0)

instance (y : Int) : Decidable (isLeapYear y) := by
  unfold isLeapYear; infer_instance

/-- Number of days in a month, as Go's `time` package uses to validate the
parsed day component. -/
def daysInMonth (y m : Int) : Int :=
  if m = 2 then (if isLeapYear y then 29 else 28)
  else if m = 4 ∨ m = 6 ∨ m = 9 ∨ m = 11 then 30
  else 31

/-- Go `time.Parse("2006-01-02 15:04:05,000", s)`: the text must be
`YYYY-MM-DD HH:MM:SS` followed by `,` or `.` and exactly three fractional
digits, with every component in range; `none` models the parse error. -/
def parseTimestamp (s : String) : Option GoTime :=
  match s.toList with
  | [y1, y2, y3, y4, c1, mo1, mo2, c2, d1, d2, c3,
     h1, h2, c4, mi1, mi2, c5, s1, s2, sep, f1, f2, f3] =>
    if c1 = '-' ∧ c2 = '-' ∧ c3 = ' ' ∧ c4 = ':' ∧ c5 = ':'
        ∧ (sep = ',' ∨ sep = '.')
        ∧ ([y1, y2, y3, y4, mo1, mo2, d1, d2, h1, h2,
            mi1, mi2, s1, s2, f1, f2, f3].all Char.isDigit) then
      let y : Int := digitsVal [y1, y2, y3, y4]
      let mo : Int := digitsVal [mo1, mo2]
      let d : Int := digitsVal [d1, d2]
      let h : Int := digitsVal [h1, h2]
      let mi : Int := digitsVal [mi1, mi2]
      let ss : Int := digitsVal [s1, s2]
      let ms : Int := digitsVal [f1, f2, f3]
      if 1 ≤ mo ∧ mo ≤ 12 ∧ 1 ≤ d ∧ d ≤ daysInMonth y mo
          ∧ h ≤ 23 ∧ mi ≤ 59 ∧ ss ≤ 59 then
        some ⟨y, mo, d, h, mi, ss, ms⟩
      else none
    else none
  | _ => none

/-- Whether the first list is a prefix of the second (Boolean). -/
def leadsWith : List Char → List Char → Bool
  | [], _ => true
  | _ :: _, [] => false
  | p :: ps, c :: cs => p = c && leadsWith ps cs

/-- Worker for `goSplit`: scan left to right, splitting at each leftmost
occurrence of the (non-empty) separator.  The fuel argument makes the
recursion structural; it is called with the input length, which suffices
because every step consumes at least one character. -/
def goSplitF (sep : List Char) : Nat → List Char → List Char → List (List Char)
  | _, [], acc => [acc.reverse]
  | 0, s, acc => [acc.reverse ++ s]
  | fuel + 1, c :: cs, acc =>
    if leadsWith sep (c :: cs) then
      acc.reverse :: goSplitF sep fuel (List.drop sep.length (c :: cs)) []
    else goSplitF sep fuel cs (c :: acc)

/-- Go `strings.Split(s, sep)` for a non-empty separator: split on every
leftmost, non-overlapping occurrence of `sep`. -/
def goSplit (s sep : String) : List String :=
  (goSplitF sep.toList s.toList.length s.toList []).map String.mk

/-- Go `strings.SplitN(s, sep, 2)`: split at the first occurrence of `sep`
only; one element when `sep` does not occur. -/
def splitN2 (s sep : String) : List String :=
  match goSplit s sep with
  | [] => [s]
  | [x] => [x]
  | x :: rest => [x, String.intercalate sep rest]

/-- The strongly typed log line object of `logline.go` (`LogLine`), with the
pointer indirection of the Go fields elided. -/
structure LogLine where
  processID : String
  threadID : String
  threadName : String
  timestamp : GoTime
  message : String
deriving DecidableEq

/-- The `ParseLogline` function of `logline.go`: split once on `::`; split the head on `:`
into exactly two tokens; split the tail once on `" - "`; split its head once
on a space; parse the timestamp.  `none` models the returned parse error. -/
def ParseLogline (lineText : String) : Option LogLine :=
  match splitN2 lineText "::" with
  | [firstHalf, secondHalf] =>
    match goSplit firstHalf ":" with
    | [pid, tid] =>
      match splitN2 secondHalf " - " with
      | [head2, msg] =>
        match splitN2 head2 " " with
        | [tname, tsText] =>
          match parseTimestamp tsText with
          | some ts => some ⟨pid, tid, tname, ts, msg⟩
          | none => none
        | _ => none
      | _ => none
    | _ => none
  | _ => none

/-- Zero-pad an integer in `[0, 99]` to two digits. -/
def pad2 (n : Int) : String := if n < 10 then "0" ++ toString n else toString n

/-- Zero-pad an integer in `[0, 999]` to three digits. -/
def pad3 (n : Int) : String :=
  if n < 10 then "00" ++ toString n
  else if n < 100 then "0" ++ toString n
  else toString n

/-- Zero-pad an integer in `[0, 9999]` to four digits. -/
def pad4 (n : Int) : String :=
  if n < 10 then "000" ++ toString n
  else if n < 100 then "00" ++ toString n
  else if n < 1000 then "0" ++ toString n
  else toString n

/-- The fractional-second text Go's `Time.String()` prints for a time with
millisecond precision: the `.999999999` layout element trims trailing zeros,
and prints nothing when the fraction is zero. -/
def fracMillis (ms : Int) : String :=
  if ms = 0 then ""
  else if Int.emod ms 100 = 0 then "." ++ toString (Int.ediv ms 100)
  else if Int.emod ms 10 = 0 then "." ++ pad2 (Int.ediv ms 10)
  else "." ++ pad3 ms

/-- Go's default formatting of a `time.Time` (`%v`, i.e. `Time.String()`,
layout `2006-01-02 15:04:05.999999999 -0700 MST`) for a UTC instant parsed
with millisecond precision. -/
def goTimeString (t : GoTime) : String :=
  pad4 t.year ++ "-" ++ pad2 t.month ++ "-" ++ pad2 t.day ++ " "
    ++ pad2 t.hour ++ ":" ++ pad2 t.minute ++ ":" ++ pad2 t.second
    ++ fracMillis t.millis ++ " +0000 UTC"

/-- The `String()` method of `LogLine` in `logline.go`:
`fmt.Sprintf("%s:%s::%s %v - %s", processID, threadID, threadName, timestamp,
message)`.  Named `render` because `String` would shadow the string type. -/
def LogLine.render (ll : LogLine) : String :=
  ll.processID ++ ":" ++ ll.threadID ++ "::" ++ ll.threadName ++ " "
    ++ goTimeString ll.timestamp ++ " - " ++ ll.message

/-- The `threadLogsStartMarker` constant of `sync_log_writer.go`. -/
def threadLogsStartMarker : String := "**START**"

/-- The `threadLogsEndMarker` constant of `sync_log_writer.go`. -/
def threadLogsEndMarker : String := "**END**"

/-- The `threadFileMetadata` struct of `sync_log_writer.go`.  The `*os.File` handle is
modelled by its target path (`logFilepath`, also a Go field) plus `fdOpen`;
`fdOpen = false` models the `nil` handle after the end marker closes it. -/
structure ThreadFileMetadata where
  processId : String
  logsStartTimestamp : GoTime
  logsEndTimestamp : GoTime
  fdOpen : Bool
  logFilepath : String
deriving DecidableEq

/-- The `SyncLogWriter` struct of `sync_log_writer.go` together with the file system it
writes through: `threadsMetadata` is the Go map as an association list (keys
unique by construction), `files` maps a path to the lines appended so far. -/
structure SyncLogWriter where
  threadsMetadata : List (String × ThreadFileMetadata)
  files : String → List String

/-- Go map lookup `slw.threadsMetadata[tid]`. -/
def lookupThread (l : List (String × ThreadFileMetadata)) (tid : String) :
    Option ThreadFileMetadata :=
  match l with
  | [] => none
  | (k, v) :: rest => if k = tid then some v else lookupThread rest tid

/-- In-place mutation through the `*threadFileMetadata` pointer held in the
map: replace the entry for `tid`. -/
def updateThread (l : List (String × ThreadFileMetadata)) (tid : String)
    (m : ThreadFileMetadata) : List (String × ThreadFileMetadata) :=
  match l with
  | [] => []
  | (k, v) :: rest =>
    if k = tid then (k, m) :: rest else (k, v) :: updateThread rest tid m

/-- Worker for `goPathClean`: Go `path.Clean`'s element processing over the
slash-separated components.  `out` is the stack of kept elements, most recent
first.  Empty and `.` components are dropped; `..` pops the previous element
when there is one and it is not itself `..`, is dropped at the root of a
rooted path, and is kept otherwise (a relative path may begin with `..`). -/
def cleanComponents (rooted : Bool) : List String → List String → List String
  | [], out => out.reverse
  | c :: rest, out =>
    if c = "" ∨ c = "." then cleanComponents rooted rest out
    else if c = ".." then
      match out with
      | o :: os =>
        if o = ".." then cleanComponents rooted rest (c :: o :: os)
        else cleanComponents rooted rest os
      | [] =>
        if rooted then cleanComponents rooted rest []
        else cleanComponents rooted rest [c]
    else cleanComponents rooted rest (c :: out)

/-- Go `path.Clean` (= `filepath.Clean` on Unix): collapse repeated slashes,
drop `.` elements, resolve `..` against preceding elements, never escaping
the root; an empty result becomes `.`. -/
def goPathClean (p : String) : String :=
  let rooted : Bool := leadsWith ['/'] p.toList
  let body := String.intercalate "/" (cleanComponents rooted (goSplit p "/") [])
  if rooted then (if body = "" then "/" else "/" ++ body)
  else (if body = "" then "." else body)

/-- Go `filepath.Join(mergeLogFilePath, fmt.Sprintf("%s-%s.%s", pid, tid, "log"))`
with `mergeLogFilePath = "./mergedlogs"`: `Join(a, b)` is
`Clean(a ++ "/" ++ b)`, so the stored and opened path is the cleaned one
(ids containing `/`, `.` or `..` are cleaned away, not kept verbatim). -/
def mkLogFilePath (pid tid : String) : String :=
  goPathClean ("./mergedlogs/" ++ pid ++ "-" ++ tid ++ ".log")

/-- The fresh writer produced by `NewLogWriter` (directory creation assumed to
succeed), over an empty file system. -/
def initWriter : SyncLogWriter := ⟨[], fun _ => []⟩

/-- The `writeLogLine` helper of `sync_log_writer.go`: append the rendered line plus a
newline to the thread's log file; on the end marker, record the end timestamp
and close the handle.  Writing through a closed (`nil`) handle fails with Go's
`os.ErrInvalid` and writes nothing.  Returns the error (if any) and the
resulting writer. -/
def writeLogLine (slw : SyncLogWriter) (ll : LogLine)
    (thState : ThreadFileMetadata) : Option String × SyncLogWriter :=
  if thState.fdOpen = false then
    (some ("error occurred while writing to [" ++ thState.logFilepath
        ++ "]: invalid argument"), slw)
  else
    let fs2 : String → List String := fun p =>
      if p = thState.logFilepath then slw.files p ++ [ll.render] else slw.files p
    let newState : ThreadFileMetadata :=
      if ll.message = threadLogsEndMarker then
        { thState with logsEndTimestamp := ll.timestamp, fdOpen := false }
      else thState
    (none, ⟨updateThread slw.threadsMetadata ll.threadID newState, fs2⟩)

/-- The `Write` method of `sync_log_writer.go`, with `initialize` (the helper that
creates the log file and metadata for an unseen thread id, rejecting any
first record whose message is not the start marker) inlined in the `none`
branch of the map lookup.  The Go zero values of `threadFileMetadata` fill
the fields `initialize` does not set (`logsEndTimestamp` stays the zero
time).  File creation is assumed to succeed. -/
def SyncLogWriter.Write (slw : SyncLogWriter) (ll : LogLine) :
    Option String × SyncLogWriter :=
  match lookupThread slw.threadsMetadata ll.threadID with
  | some thState => writeLogLine slw ll thState
  | none =>
    if ll.message ≠ threadLogsStartMarker then
      (some "error occurred while initializing log section: invalid start of thread logs",
        slw)
    else
      let filePath := mkLogFilePath ll.processID ll.threadID
      let thState : ThreadFileMetadata :=
        ⟨ll.processID, ll.timestamp, zeroGoTime, true, filePath⟩
      let slw2 : SyncLogWriter :=
        ⟨slw.threadsMetadata ++ [(ll.threadID, thState)], slw.files⟩
      writeLogLine slw2 ll thState

/-- Feeding a sequence of parsed records to `Write` in arrival order,
stopping at the first error (as the ingestion loop does). -/
def writeAll (recs : List LogLine) (slw : SyncLogWriter) :
    Option String × SyncLogWriter :=
  match recs with
  | [] => (none, slw)
  | r :: rest =>
    match slw.Write r with
    | (some e, s2) => (some e, s2)
    | (none, s2) => writeAll rest s2

/-- The `convertProcessLogFile` function of the ingestion file: scan the file's lines in
order, parse each and write it; a parse or write failure logs and returns the
error immediately, abandoning the rest of the file.  A file is its list of
lines (opening and scanning assumed to succeed). -/
def convertProcessLogFile (lines : List String) (slw : SyncLogWriter) :
    Option String × SyncLogWriter :=
  match lines with
  | [] => (none, slw)
  | line :: rest =>
    match ParseLogline line with
    | none => (some "log line parse error", slw)
    | some ll =>
      match slw.Write ll with
      | (some e, s2) => (some e, s2)
      | (none, s2) => convertProcessLogFile rest s2

/-- The `ProcessRawLogFiles` function of the ingestion file: convert every file of the
input directory in order.  The source discards the value returned by
`convertProcessLogFile`, so after a successful directory read the function
always returns `nil`; the directory listing is the input list (each file as
its list of lines). -/
def ProcessRawLogFiles (files : List (List String)) (slw : SyncLogWriter) :
    Option String × SyncLogWriter :=
  match files with
  | [] => (none, slw)
  | f :: rest =>
    ProcessRawLogFiles rest (convertProcessLogFile f slw).2

/-- The `ThreadInfo` struct returned by the active-thread query. -/
structure ThreadInfo where
  ProcessID : String
  ThreadId : String
  ThreadFileName : String
deriving DecidableEq

/-- Loop body of `GetActiveThreadCountBetweenInterval` over the metadata
entries: skip a thread iff `endTime.Before(logsStartTimestamp) ||
startTime.After(logsEndTimestamp)`. -/
def getActiveAux (l : List (String × ThreadFileMetadata))
    (startTime endTime : GoTime) : List ThreadInfo :=
  match l with
  | [] => []
  | (tid, m) :: rest =>
    if endTime.toNs < m.logsStartTimestamp.toNs
        ∨ startTime.toNs > m.logsEndTimestamp.toNs then
      getActiveAux rest startTime endTime
    else
      ⟨m.processId, tid, m.logFilepath⟩ :: getActiveAux rest startTime endTime

/-- The `GetActiveThreadCountBetweenInterval` query of `sync_log_writer.go`. -/
def SyncLogWriter.GetActiveThreadCountBetweenInterval (slw : SyncLogWriter)
    (startTime endTime : GoTime) : List ThreadInfo :=
  getActiveAux slw.threadsMetadata startTime endTime

/-- The condition of the inner loop of `GetMaxConcurrencyAndEpoch`:
`inner.logsStartTimestamp.Equal(outer.logsStartTimestamp) ||
(inner.logsStartTimestamp.After(outer.logsStartTimestamp) &&
inner.logsStartTimestamp.Before(outer.logsEndTimestamp))`. -/
def concCond (outer inner : ThreadFileMetadata) : Prop :=
  inner.logsStartTimestamp.toNs = outer.logsStartTimestamp.toNs
  ∨ (inner.logsStartTimestamp.toNs > outer.logsStartTimestamp.toNs
      ∧ inner.logsStartTimestamp.toNs < outer.logsEndTimestamp.toNs)

instance (a b : ThreadFileMetadata) : Decidable (concCond a b) := by
  unfold concCond; infer_instance

/-- The count the inner loop of `GetMaxConcurrencyAndEpoch` accumulates in
`memo[thId]` for a thread with metadata `outer`. -/
def concCount (l : List (String × ThreadFileMetadata))
    (outer : ThreadFileMetadata) : Nat :=
  l.countP (fun p => decide (concCond outer p.2))

/-- The `memo` map of `GetMaxConcurrencyAndEpoch`: thread id to its count. -/
def memoList (l : List (String × ThreadFileMetadata)) : List (String × Nat) :=
  l.map (fun p => (p.1, concCount l p.2))

/-- The second loop of `GetMaxConcurrencyAndEpoch`: track the running maximum
(strict improvement) and set the epoch to `threadsMetadata[thId]`'s start
timestamp at each improvement.  The lookup cannot fail; its default is never
used. -/
def maxConcAux (l : List (String × ThreadFileMetadata)) :
    List (String × Nat) → Nat → GoTime → Nat × GoTime
  | [], maxC, epoch => (maxC, epoch)
  | (tid, c) :: rest, maxC, epoch =>
    if c > maxC then
      maxConcAux l rest c
        (((lookupThread l tid).map ThreadFileMetadata.logsStartTimestamp).getD
          zeroGoTime)
    else maxConcAux l rest maxC epoch

/-- The `GetMaxConcurrencyAndEpoch` query of `sync_log_writer.go`: `maxConcurrency`
starts at the zero `int`, `epoch` at the zero `time.Time`. -/
def SyncLogWriter.GetMaxConcurrencyAndEpoch (slw : SyncLogWriter) :
    Nat × GoTime :=
  maxConcAux slw.threadsMetadata (memoList slw.threadsMetadata) 0 zeroGoTime

/-- The millisecond runtime of one thread: `logsEndTimestamp.Sub(logsStartTimestamp)
.Milliseconds()`. -/
def runtimeMs (m : ThreadFileMetadata) : Int :=
  durationMilliseconds (timeSub m.logsEndTimestamp m.logsStartTimestamp)

/-- The `aggRuntime` accumulator of `GetAvgStdThreadRuntime` (an `int64`
sum of millisecond runtimes). -/
def aggRuntime (l : List (String × ThreadFileMetadata)) : Int :=
  l.foldl (fun acc p => acc + runtimeMs p.2) 0

/-- The `avgRuntime` value of `GetAvgStdThreadRuntime`:
`float64(aggRuntime) / float64(len(threadsMetadata))`, with `float64`
modelled exactly by the rationals. -/
def goAvgRuntime (l : List (String × ThreadFileMetadata)) : ℚ :=
  (aggRuntime l : ℚ) / (l.length : ℚ)

/-- The `stdSum` accumulator of `GetAvgStdThreadRuntime`:
the sum of `math.Pow(avgRuntime - float64(runtimeMs), 2)`. -/
def goStdSum (l : List (String × ThreadFileMetadata)) : ℚ :=
  l.foldl (fun acc p => acc + (goAvgRuntime l - (runtimeMs p.2 : ℚ)) ^ 2) 0

/-- The `GetAvgStdThreadRuntime` query of `sync_log_writer.go`:
`(avgRuntime, math.Sqrt(stdSum / float64(len(threadsMetadata))))`, with
`float64` modelled by the real numbers (the square root forces `ℝ`). -/
noncomputable def SyncLogWriter.GetAvgStdThreadRuntime (slw : SyncLogWriter) :
    ℝ × ℝ :=
  ((goAvgRuntime slw.threadsMetadata : ℚ),
    Real.sqrt ((goStdSum slw.threadsMetadata : ℚ)
      / (slw.threadsMetadata.length : ℝ)))

/-- The well-formed input line used to exhibit the timestamp re-serialization
divergence. -/
def c3Line : String := "p1:t1::main 2011-01-02 15:04:05,123 - **START**"

/-- The well-formed input line used to exhibit the round-trip failure. -/
def c9Line : String := "w9:u9::worker 2021-06-30 23:59:59,250 - payload text"

/-- A well-formed line for a second input file. -/
def c2GoodLine : String := "p2:t2::main 2020-01-01 00:00:00,000 - **START**"

/-- Second `T` on 2020-01-01, for the concurrency example. -/
def c1Time (s : Int) : GoTime := ⟨2020, 1, 1, 0, 0, s, 0⟩

/-- The spec's three-thread example, as the record stream that produces
closed segments (0,10), (2,8), (9,15) (seconds). -/
def c1Recs : List LogLine :=
  [⟨"p", "th1", "a", c1Time 0, "**START**"⟩,
   ⟨"p", "th2", "b", c1Time 2, "**START**"⟩,
   ⟨"p", "th2", "b", c1Time 8, "**END**"⟩,
   ⟨"p", "th3", "c", c1Time 9, "**START**"⟩,
   ⟨"p", "th1", "a", c1Time 10, "**END**"⟩,
   ⟨"p", "th3", "c", c1Time 15, "**END**"⟩]

/-- The metadata `writeLogLine` leaves behind for the written thread. -/
def wlState (r : LogLine) (m : ThreadFileMetadata) : ThreadFileMetadata :=
  if r.message = threadLogsEndMarker then
    { m with logsEndTimestamp := r.timestamp, fdOpen := false }
  else m

/-- The metadata `initialize` creates for an unseen thread id. -/
def freshMeta (r : LogLine) : ThreadFileMetadata :=
  ⟨r.processID, r.timestamp, zeroGoTime, true, mkLogFilePath r.processID r.threadID⟩

/-- The file system after appending one line to the file at `path`. -/
def appendAt (fs : String → List String) (path line : String) :
    String → List String :=
  fun p => if p = path then fs p ++ [line] else fs p

/-- The metadata of the spec's touching-endpoint example: segment
10:00:00–10:00:05. -/
def c6Meta : ThreadFileMetadata :=
  ⟨"p6", ⟨2020, 8, 9, 10, 0, 0, 0⟩, ⟨2020, 8, 9, 10, 0, 5, 0⟩, false,
    "mergedlogs/p6-t6.log"⟩

/-- A tracker holding only the example segment. -/
def c6Writer : SyncLogWriter := ⟨[("t6", c6Meta)], fun _ => []⟩

/-- A record stream whose single thread never receives an end marker. -/
def c10Recs : List LogLine :=
  [⟨"pz", "tz", "z", ⟨2020, 5, 5, 1, 2, 3, 0⟩, "**START**"⟩,
   ⟨"pz", "tz", "z", ⟨2020, 5, 5, 1, 2, 4, 0⟩, "working"⟩]

/-- The metadata the tracker holds for that thread. -/
def c10Meta : ThreadFileMetadata :=
  ⟨"pz", ⟨2020, 5, 5, 1, 2, 3, 0⟩, zeroGoTime, true, "mergedlogs/pz-tz.log"⟩

/-- The maximum of the counts in the `memo` map (0 when empty). -/
def memoMax (memo : List (String × Nat)) : Nat :=
  memo.foldr (fun p acc => max p.2 acc) 0

/-- A two-thread tracker for the concurrency-spec witness. -/
def c5Writer : SyncLogWriter :=
  ⟨[("a5", ⟨"p5", ⟨2020, 1, 1, 0, 0, 0, 0⟩, ⟨2020, 1, 1, 0, 0, 10, 0⟩, false,
        "mergedlogs/p5-a5.log"⟩),
    ("b5", ⟨"p5", ⟨2020, 1, 1, 0, 0, 2, 0⟩, ⟨2020, 1, 1, 0, 0, 8, 0⟩, false,
        "mergedlogs/p5-b5.log"⟩)], fun _ => []⟩

/-- The arithmetic mean of a list of (millisecond) runtimes, written from the
spec's words; rationals model exact `float64` arithmetic. -/
def specMean (xs : List Int) : ℚ := (xs.sum : ℚ) / (xs.length : ℚ)

/-- The population variance (division by `n`, not `n - 1`) of a list of
runtimes, written from the spec's words. -/
def specPopVar (xs : List Int) : ℚ :=
  (xs.map fun x : Int => (specMean xs - (x : ℚ)) ^ 2).sum / (xs.length : ℚ)

/-- The population standard deviation of a list of runtimes. -/
noncomputable def specPopStd (xs : List Int) : ℝ :=
  Real.sqrt ((specPopVar xs : ℚ) : ℝ)

/-- A three-thread tracker whose closed segments have runtimes 100 ms, 200 ms
and 300 ms. -/
def c8Writer : SyncLogWriter :=
  ⟨[("a8", ⟨"p8", ⟨2020, 1, 1, 0, 0, 0, 0⟩, ⟨2020, 1, 1, 0, 0, 0, 100⟩, false,
        "mergedlogs/p8-a8.log"⟩),
    ("b8", ⟨"p8", ⟨2020, 1, 1, 0, 0, 1, 0⟩, ⟨2020, 1, 1, 0, 0, 1, 200⟩, false,
        "mergedlogs/p8-b8.log"⟩),
    ("c8", ⟨"p8", ⟨2020, 1, 1, 0, 0, 2, 0⟩, ⟨2020, 1, 1, 0, 0, 2, 300⟩, false,
        "mergedlogs/p8-c8.log"⟩)], fun _ => []⟩

/-- The interleaved record stream that breaks the demultiplexing claim: the
two thread ids are distinct, both start correctly, yet both segments render
the same log file name `mergedlogs/a-b-c.log`, because the `-` separator of
the file-name pattern also occurs in the ids. -/
def c4BadRecs : List LogLine :=
  [⟨"a-b", "c", "m", ⟨2020, 1, 1, 0, 0, 0, 0⟩, "**START**"⟩,
   ⟨"a", "b-c", "m", ⟨2020, 1, 1, 0, 0, 1, 0⟩, "**START**"⟩]

/-- Path injectivity of a writer state, in lookup form. -/
def pathInjective (s : SyncLogWriter) : Prop :=
  ∀ t1 t2 m1 m2, lookupThread s.threadsMetadata t1 = some m1 →
    lookupThread s.threadsMetadata t2 = some m2 → t1 ≠ t2 →
    m1.logFilepath ≠ m2.logFilepath

/-- An interleaved two-thread stream with collision-free ids. -/
def c4Recs : List LogLine :=
  [⟨"px", "t1", "m", ⟨2020, 1, 1, 0, 0, 0, 0⟩, "**START**"⟩,
   ⟨"py", "t2", "m", ⟨2020, 1, 1, 0, 0, 1, 0⟩, "**START**"⟩,
   ⟨"px", "t1", "m", ⟨2020, 1, 1, 0, 0, 2, 0⟩, "hello"⟩,
   ⟨"px", "t1", "m", ⟨2020, 1, 1, 0, 0, 3, 0⟩, "**END**"⟩,
   ⟨"py", "t2", "m", ⟨2020, 1, 1, 0, 0, 4, 0⟩, "**END**"⟩]

/-- The log file path of a fresh segment's metadata. -/
theorem freshMeta_logFilepath (r : LogLine) :
    (freshMeta r).logFilepath = mkLogFilePath r.processID r.threadID := by
  simp only [freshMeta]

/-- Path cleaning is embedded: `/` and `..` inside ids collapse exactly as
Go's `filepath.Join` does, so two (processId, threadId) pairs whose cleaned
paths coincide — such as the first two below — get equal `logFilepath`s in
the model, while a plain pair keeps its verbatim name. -/
theorem mkLogFilePath_cleans :
    mkLogFilePath "p/../q" "r" = "mergedlogs/q-r.log"
    ∧ mkLogFilePath "a" "b/../q-r" = "mergedlogs/q-r.log"
    ∧ mkLogFilePath "p1" "t1" = "mergedlogs/p1-t1.log" := by
  exact ⟨by decide, by decide, by decide⟩

/-- Claim C7: a record for an unseen thread id whose message is not the
start marker is rejected by `Write` with the "invalid start of thread logs"
error (wrapped by `Write`'s context message), and the writer is returned
unchanged: no segment is created, the thread map is untouched, and no
backing store is written. -/
theorem write_rejects_invalid_start (slw : SyncLogWriter) (ll : LogLine)
    (habs : lookupThread slw.threadsMetadata ll.threadID = none)
    (hmsg : ll.message ≠ threadLogsStartMarker) :
    slw.Write ll
      = (some "error occurred while initializing log section: invalid start of thread logs",
          slw) := by
  unfold SyncLogWriter.Write
  rw [habs]
  simp [hmsg]

/-- Concrete instance of `write_rejects_invalid_start`: the empty writer
rejects a first record whose message is "hello". -/
theorem write_rejects_invalid_start_witness :
    lookupThread initWriter.threadsMetadata "t" = none
    ∧ ("hello" : String) ≠ threadLogsStartMarker
    ∧ initWriter.Write ⟨"p", "t", "n", ⟨2020, 1, 1, 0, 0, 0, 0⟩, "hello"⟩
        = (some "error occurred while initializing log section: invalid start of thread logs",
            initWriter) := by
  exact ⟨by decide, by decide,
    write_rejects_invalid_start initWriter
      ⟨"p", "t", "n", ⟨2020, 1, 1, 0, 0, 0, 0⟩, "hello"⟩ (by decide) (by decide)⟩

/-- Claim C3 (divergence witness): ingesting a well-formed line through the
real pipeline appends Go's default `time.Time` rendering
(`2011-01-02 15:04:05.123 +0000 UTC`, from the `%v` verb in
`LogLine.String()`), not the comma-millisecond input format: the stored line
differs from the claimed re-serialization, which for this record is the
original line itself. -/
theorem render_uses_go_default_time_format :
    (convertProcessLogFile [c3Line] initWriter).1 = none
    ∧ ((convertProcessLogFile [c3Line] initWriter).2).files "mergedlogs/p1-t1.log"
        = ["p1:t1::main 2011-01-02 15:04:05.123 +0000 UTC - **START**"]
    ∧ ((convertProcessLogFile [c3Line] initWriter).2).files "mergedlogs/p1-t1.log"
        ≠ [c3Line] := by
  exact ⟨by decide, by decide, by decide⟩

/-- Claim C9 (divergence witness): parsing a well-formed line succeeds, but
re-parsing its rendering fails, because the rendered timestamp
(`2021-06-30 23:59:59.25 +0000 UTC`) does not match the input layout: the
fraction is dot-separated with trailing zeros trimmed and the zone suffix
trails the layout. -/
theorem reparse_of_render_fails :
    ParseLogline c9Line
      = some ⟨"w9", "u9", "worker", ⟨2021, 6, 30, 23, 59, 59, 250⟩, "payload text"⟩
    ∧ ParseLogline
        (LogLine.render
          ⟨"w9", "u9", "worker", ⟨2021, 6, 30, 23, 59, 59, 250⟩, "payload text"⟩)
        = none := by
  exact ⟨by decide, by decide⟩

/-- Claim C2 (divergence witness): a parse failure makes
`convertProcessLogFile` return an error for its file, but `ProcessRawLogFiles`
discards that error: over a directory whose first file is unparseable it
still returns success (`none`), silently, while continuing with the second
file (whose thread is ingested). -/
theorem ingest_error_not_surfaced :
    (convertProcessLogFile ["garbage"] initWriter).1 = some "log line parse error"
    ∧ (ProcessRawLogFiles [["garbage"], [c2GoodLine]] initWriter).1 = none
    ∧ lookupThread
        ((ProcessRawLogFiles [["garbage"], [c2GoodLine]] initWriter).2).threadsMetadata
        "t2" ≠ none := by
  exact ⟨by decide, by decide, by decide⟩

/-- Claim C1 (divergence witness): on segments (0,10), (2,8), (9,15) the code
reports peak 3 with epoch t=0 — the count for the (0,10) thread includes
every thread that starts inside its window, ignoring that (2,8) has ended
before (9,15) starts — whereas at most two threads are ever alive at once. -/
theorem max_concurrency_overcounts_example :
    (writeAll c1Recs initWriter).1 = none
    ∧ ((writeAll c1Recs initWriter).2).GetMaxConcurrencyAndEpoch = (3, c1Time 0) := by
  exact ⟨by decide, by decide⟩

theorem lookupThread_none_iff (l : List (String × ThreadFileMetadata)) (tid : String) :
    lookupThread l tid = none ↔ tid ∉ l.map Prod.fst := by
  induction l with
  | nil => simp [lookupThread]
  | cons p rest ih =>
    obtain ⟨k, v⟩ := p
    by_cases h : k = tid
    · subst h
      simp [lookupThread]
    · simp only [lookupThread, if_neg h, List.map_cons, List.mem_cons, ih]
      constructor
      · rintro hni (rfl | hm)
        · exact h rfl
        · exact hni hm
      · intro hni hm
        exact hni (Or.inr hm)

theorem lookupThread_mem (l : List (String × ThreadFileMetadata)) (tid : String)
    (m : ThreadFileMetadata) (h : lookupThread l tid = some m) : (tid, m) ∈ l := by
  induction l with
  | nil => simp [lookupThread] at h
  | cons p rest ih =>
    obtain ⟨k, v⟩ := p
    by_cases hk : k = tid
    · subst hk
      simp only [lookupThread, if_pos rfl] at h
      obtain rfl : v = m := Option.some.inj h
      exact List.mem_cons_self _ _
    · simp only [lookupThread, if_neg hk] at h
      exact List.mem_cons_of_mem _ (ih h)

theorem lookupThread_eq_of_mem (l : List (String × ThreadFileMetadata))
    (tid : String) (m : ThreadFileMetadata)
    (hnd : (l.map Prod.fst).Nodup) (h : (tid, m) ∈ l) :
    lookupThread l tid = some m := by
  induction l with
  | nil => simp at h
  | cons p rest ih =>
    obtain ⟨k, v⟩ := p
    simp only [List.map_cons, List.nodup_cons] at hnd
    rcases List.mem_cons.mp h with heq | hmem
    · rw [Prod.ext_iff] at heq
      obtain ⟨h1, h2⟩ := heq
      simp only at h1 h2
      subst h1
      subst h2
      simp [lookupThread]
    · have hk : k ≠ tid := by
        rintro rfl
        exact hnd.1 (List.mem_map_of_mem Prod.fst hmem)
      simp only [lookupThread, if_neg hk]
      exact ih hnd.2 hmem

theorem updateThread_keys (l : List (String × ThreadFileMetadata)) (tid : String)
    (m : ThreadFileMetadata) :
    (updateThread l tid m).map Prod.fst = l.map Prod.fst := by
  induction l with
  | nil => rfl
  | cons p rest ih =>
    obtain ⟨k, v⟩ := p
    by_cases h : k = tid
    · simp [updateThread, h]
    · simp [updateThread, h, ih]

theorem lookupThread_update_self (l : List (String × ThreadFileMetadata))
    (tid : String) (m0 m : ThreadFileMetadata)
    (h : lookupThread l tid = some m0) :
    lookupThread (updateThread l tid m) tid = some m := by
  induction l with
  | nil => simp [lookupThread] at h
  | cons p rest ih =>
    obtain ⟨k, v⟩ := p
    by_cases hk : k = tid
    · simp [updateThread, hk, lookupThread]
    · simp only [lookupThread, if_neg hk] at h
      simp only [updateThread, if_neg hk, lookupThread, if_neg hk]
      exact ih h

theorem lookupThread_update_ne (l : List (String × ThreadFileMetadata))
    (tid t : String) (m : ThreadFileMetadata) (hne : t ≠ tid) :
    lookupThread (updateThread l tid m) t = lookupThread l t := by
  induction l with
  | nil => rfl
  | cons p rest ih =>
    obtain ⟨k, v⟩ := p
    by_cases hk : k = tid
    · subst hk
      simp only [updateThread, if_pos rfl, lookupThread, if_neg (Ne.symm hne)]
    · simp only [updateThread, if_neg hk, lookupThread]
      by_cases hkt : k = t
      · simp only [if_pos hkt]
      · simp only [if_neg hkt]
        exact ih

theorem lookupThread_append_left (l l2 : List (String × ThreadFileMetadata))
    (tid : String) (m : ThreadFileMetadata) (h : lookupThread l tid = some m) :
    lookupThread (l ++ l2) tid = some m := by
  induction l with
  | nil => simp [lookupThread] at h
  | cons p rest ih =>
    obtain ⟨k, v⟩ := p
    by_cases hk : k = tid
    · simp only [lookupThread, if_pos hk] at h
      simp [lookupThread, hk, h]
    · simp only [lookupThread, if_neg hk] at h
      simp only [List.cons_append, lookupThread, if_neg hk]
      exact ih h

theorem lookupThread_append_fresh (l : List (String × ThreadFileMetadata))
    (tid : String) (m : ThreadFileMetadata) (h : lookupThread l tid = none) :
    lookupThread (l ++ [(tid, m)]) tid = some m := by
  induction l with
  | nil => simp [lookupThread]
  | cons p rest ih =>
    obtain ⟨k, v⟩ := p
    by_cases hk : k = tid
    · simp [lookupThread, hk] at h
    · simp only [lookupThread, if_neg hk] at h
      simp only [List.cons_append, lookupThread, if_neg hk]
      exact ih h

theorem lookupThread_append_single_ne (l : List (String × ThreadFileMetadata))
    (tid t : String) (m : ThreadFileMetadata) (hne : t ≠ tid) :
    lookupThread (l ++ [(tid, m)]) t = lookupThread l t := by
  induction l with
  | nil => simp [lookupThread, Ne.symm hne]
  | cons p rest ih =>
    obtain ⟨k, v⟩ := p
    by_cases hk : k = t
    · simp [lookupThread, hk]
    · simp only [List.cons_append, lookupThread, if_neg hk]
      exact ih

theorem updateThread_append_fresh (l : List (String × ThreadFileMetadata))
    (tid : String) (m0 m : ThreadFileMetadata) (h : lookupThread l tid = none) :
    updateThread (l ++ [(tid, m0)]) tid m = l ++ [(tid, m)] := by
  induction l with
  | nil => simp [updateThread]
  | cons p rest ih =>
    obtain ⟨k, v⟩ := p
    by_cases hk : k = tid
    · simp [lookupThread, hk] at h
    · simp only [lookupThread, if_neg hk] at h
      simp only [List.cons_append, updateThread, if_neg hk]
      exact congrArg (List.cons (k, v)) (ih h)

theorem wlState_logFilepath (r : LogLine) (m : ThreadFileMetadata) :
    (wlState r m).logFilepath = m.logFilepath := by
  unfold wlState
  by_cases h : r.message = threadLogsEndMarker
  · simp [h]
  · simp [h]

theorem wlState_processId (r : LogLine) (m : ThreadFileMetadata) :
    (wlState r m).processId = m.processId := by
  unfold wlState
  by_cases h : r.message = threadLogsEndMarker
  · simp [h]
  · simp [h]

theorem wlState_start (r : LogLine) (m : ThreadFileMetadata) :
    (wlState r m).logsStartTimestamp = m.logsStartTimestamp := by
  unfold wlState
  by_cases h : r.message = threadLogsEndMarker
  · simp [h]
  · simp [h]

theorem wlState_end_of_not_end (r : LogLine) (m : ThreadFileMetadata)
    (h : r.message ≠ threadLogsEndMarker) :
    (wlState r m).logsEndTimestamp = m.logsEndTimestamp := by
  simp [wlState, h]

theorem write_eq_writeLogLine (s : SyncLogWriter) (r : LogLine)
    (m : ThreadFileMetadata)
    (hl : lookupThread s.threadsMetadata r.threadID = some m) :
    s.Write r = writeLogLine s r m := by
  unfold SyncLogWriter.Write
  rw [hl]

theorem writeLogLine_closed (s : SyncLogWriter) (r : LogLine)
    (m : ThreadFileMetadata) (hfd : m.fdOpen = false) :
    writeLogLine s r m
      = (some ("error occurred while writing to [" ++ m.logFilepath
          ++ "]: invalid argument"), s) := by
  unfold writeLogLine
  rw [hfd]
  rw [if_pos rfl]

theorem writeLogLine_open (s : SyncLogWriter) (r : LogLine)
    (m : ThreadFileMetadata) (hfd : m.fdOpen = true) :
    writeLogLine s r m
      = (none, ⟨updateThread s.threadsMetadata r.threadID (wlState r m),
          appendAt s.files m.logFilepath r.render⟩) := by
  unfold writeLogLine wlState appendAt
  rw [hfd]
  rw [if_neg (show ¬(true = false) by decide)]

theorem write_invalid_eq (s : SyncLogWriter) (r : LogLine)
    (hl : lookupThread s.threadsMetadata r.threadID = none)
    (hmsg : r.message ≠ threadLogsStartMarker) :
    s.Write r
      = (some "error occurred while initializing log section: invalid start of thread logs",
          s) := by
  unfold SyncLogWriter.Write
  rw [hl]
  rw [if_pos hmsg]

theorem write_fresh_eq (s : SyncLogWriter) (r : LogLine)
    (hl : lookupThread s.threadsMetadata r.threadID = none)
    (hmsg : r.message = threadLogsStartMarker) :
    s.Write r
      = (none, ⟨s.threadsMetadata ++ [(r.threadID, freshMeta r)],
          appendAt s.files (mkLogFilePath r.processID r.threadID) r.render⟩) := by
  unfold SyncLogWriter.Write
  rw [hl]
  rw [if_neg (show ¬r.message ≠ threadLogsStartMarker from not_not_intro hmsg)]
  show writeLogLine ⟨s.threadsMetadata ++ [(r.threadID, freshMeta r)], s.files⟩ r
      (freshMeta r) = _
  rw [writeLogLine_open _ _ _ rfl]
  show (none, (⟨updateThread (s.threadsMetadata ++ [(r.threadID, freshMeta r)])
      r.threadID (wlState r (freshMeta r)),
      appendAt s.files (freshMeta r).logFilepath r.render⟩ : SyncLogWriter)) = _
  rw [show wlState r (freshMeta r) = freshMeta r from by
    unfold wlState
    rw [if_neg (show ¬r.message = threadLogsEndMarker from by
      rw [hmsg]; decide)]]
  rw [updateThread_append_fresh _ _ _ _ hl]
  rfl

/-- A successful `Write` either appended to an existing open segment (updating
its metadata through the pointer) or created a fresh segment for a
start-marker record and appended to its (fresh) file. -/
theorem write_ok_char (s : SyncLogWriter) (r : LogLine) (s2 : SyncLogWriter)
    (h : s.Write r = (none, s2)) :
    (∃ m, lookupThread s.threadsMetadata r.threadID = some m ∧ m.fdOpen = true
      ∧ s2.threadsMetadata = updateThread s.threadsMetadata r.threadID (wlState r m)
      ∧ s2.files = appendAt s.files m.logFilepath r.render)
    ∨ (lookupThread s.threadsMetadata r.threadID = none
      ∧ r.message = threadLogsStartMarker
      ∧ s2.threadsMetadata = s.threadsMetadata ++ [(r.threadID, freshMeta r)]
      ∧ s2.files = appendAt s.files (mkLogFilePath r.processID r.threadID) r.render) := by
  cases hl : lookupThread s.threadsMetadata r.threadID with
  | some m =>
    left
    cases hfd : m.fdOpen with
    | false =>
      rw [write_eq_writeLogLine s r m hl, writeLogLine_closed s r m hfd] at h
      exact absurd (congrArg Prod.fst h) (by simp)
    | true =>
      rw [write_eq_writeLogLine s r m hl, writeLogLine_open s r m hfd] at h
      have h2 := (Prod.mk.injEq _ _ _ _).mp h
      exact ⟨m, rfl, hfd, by rw [← h2.2], by rw [← h2.2]⟩
  | none =>
    by_cases hmsg : r.message = threadLogsStartMarker
    · right
      rw [write_fresh_eq s r hl hmsg] at h
      have h2 := (Prod.mk.injEq _ _ _ _).mp h
      exact ⟨rfl, hmsg, by rw [← h2.2], by rw [← h2.2]⟩
    · rw [write_invalid_eq s r hl hmsg] at h
      exact absurd (congrArg Prod.fst h) (by simp)

theorem write_preserves_some (s : SyncLogWriter) (r : LogLine) (s2 : SyncLogWriter)
    (h : s.Write r = (none, s2)) (t : String) (m : ThreadFileMetadata)
    (hl : lookupThread s.threadsMetadata t = some m) :
    ∃ m2, lookupThread s2.threadsMetadata t = some m2
      ∧ m2.logFilepath = m.logFilepath
      ∧ m2.processId = m.processId
      ∧ m2.logsStartTimestamp = m.logsStartTimestamp
      ∧ (m2.logsEndTimestamp = m.logsEndTimestamp
          ∨ (t = r.threadID ∧ r.message = threadLogsEndMarker)) := by
  rcases write_ok_char s r s2 h with ⟨mA, hlA, _, hlist, _⟩ | ⟨hlnone, _, hlist, _⟩
  · by_cases ht : t = r.threadID
    · subst ht
      rw [hlA] at hl
      obtain rfl : mA = m := Option.some.inj hl
      refine ⟨wlState r mA, ?_, wlState_logFilepath r mA, wlState_processId r mA,
        wlState_start r mA, ?_⟩
      · rw [hlist]
        exact lookupThread_update_self _ _ _ _ hlA
      · by_cases hend : r.message = threadLogsEndMarker
        · exact Or.inr ⟨rfl, hend⟩
        · exact Or.inl (wlState_end_of_not_end r mA hend)
    · refine ⟨m, ?_, rfl, rfl, rfl, Or.inl rfl⟩
      rw [hlist, lookupThread_update_ne _ _ _ _ ht]
      exact hl
  · have ht : t ≠ r.threadID := by
      rintro rfl
      rw [hl] at hlnone
      exact Option.noConfusion hlnone
    refine ⟨m, ?_, rfl, rfl, rfl, Or.inl rfl⟩
    rw [hlist, lookupThread_append_single_ne _ _ _ _ ht]
    exact hl

theorem write_creates (s : SyncLogWriter) (r : LogLine) (s2 : SyncLogWriter)
    (h : s.Write r = (none, s2)) :
    ∃ m2, lookupThread s2.threadsMetadata r.threadID = some m2 := by
  rcases write_ok_char s r s2 h with ⟨mA, hlA, _, hlist, _⟩ | ⟨hlnone, _, hlist, _⟩
  · exact ⟨wlState r mA, by rw [hlist]; exact lookupThread_update_self _ _ _ _ hlA⟩
  · exact ⟨freshMeta r, by rw [hlist]; exact lookupThread_append_fresh _ _ _ hlnone⟩

theorem writeAll_cons_ok (r : LogLine) (rest : List LogLine) (s : SyncLogWriter)
    (h : (writeAll (r :: rest) s).1 = none) :
    ∃ s1, s.Write r = (none, s1) ∧ writeAll (r :: rest) s = writeAll rest s1 := by
  cases hw : s.Write r with
  | mk e s1 =>
    cases e with
    | some err =>
      exfalso
      have heq : writeAll (r :: rest) s = (some err, s1) := by
        simp only [writeAll]
        rw [hw]
      rw [heq] at h
      exact Option.noConfusion h
    | none =>
      refine ⟨s1, rfl, ?_⟩
      simp only [writeAll]
      rw [hw]

theorem writeAll_preserves_some (recs : List LogLine) :
    ∀ (s : SyncLogWriter), (writeAll recs s).1 = none →
    ∀ (t : String) (m : ThreadFileMetadata),
      lookupThread s.threadsMetadata t = some m →
    ∃ m2, lookupThread ((writeAll recs s).2).threadsMetadata t = some m2
      ∧ m2.logFilepath = m.logFilepath
      ∧ m2.processId = m.processId
      ∧ m2.logsStartTimestamp = m.logsStartTimestamp
      ∧ (m2.logsEndTimestamp = m.logsEndTimestamp
          ∨ ∃ r ∈ recs, r.threadID = t ∧ r.message = threadLogsEndMarker) := by
  induction recs with
  | nil =>
    intro s _ t m hl
    exact ⟨m, hl, rfl, rfl, rfl, Or.inl rfl⟩
  | cons r rest ih =>
    intro s h t m hl
    obtain ⟨s1, hw, heq⟩ := writeAll_cons_ok r rest s h
    rw [heq] at h ⊢
    obtain ⟨m1, hl1, hp1, hpid1, hs1, hend1⟩ := write_preserves_some s r s1 hw t m hl
    obtain ⟨m2, hl2, hp2, hpid2, hs2, hend2⟩ := ih s1 h t m1 hl1
    refine ⟨m2, hl2, hp2.trans hp1, hpid2.trans hpid1, hs2.trans hs1, ?_⟩
    rcases hend2 with he2 | ⟨r2, hr2, hrt, hrm⟩
    · rcases hend1 with he1 | ⟨ht, hm⟩
      · exact Or.inl (he2.trans he1)
      · exact Or.inr ⟨r, List.mem_cons_self _ _, ht.symm, hm⟩
    · exact Or.inr ⟨r2, List.mem_cons_of_mem _ hr2, hrt, hrm⟩

theorem writeAll_thread_exists (recs : List LogLine) :
    ∀ (s : SyncLogWriter), (writeAll recs s).1 = none →
    ∀ x ∈ recs,
      lookupThread ((writeAll recs s).2).threadsMetadata x.threadID ≠ none := by
  induction recs with
  | nil =>
    intro s _ x hx
    simp at hx
  | cons r rest ih =>
    intro s h x hx
    obtain ⟨s1, hw, heq⟩ := writeAll_cons_ok r rest s h
    rw [heq] at h ⊢
    rcases List.mem_cons.mp hx with rfl | hx2
    · obtain ⟨m1, hl1⟩ := write_creates s x s1 hw
      obtain ⟨m2, hl2, _⟩ := writeAll_preserves_some rest s1 h x.threadID m1 hl1
      rw [hl2]
      simp
    · exact ih s1 h x hx2

theorem write_preserves_nodup (s : SyncLogWriter) (r : LogLine) (s2 : SyncLogWriter)
    (h : s.Write r = (none, s2))
    (hnd : (s.threadsMetadata.map Prod.fst).Nodup) :
    (s2.threadsMetadata.map Prod.fst).Nodup := by
  rcases write_ok_char s r s2 h with ⟨mA, hlA, _, hlist, _⟩ | ⟨hlnone, _, hlist, _⟩
  · rw [hlist, updateThread_keys]
    exact hnd
  · have hni : r.threadID ∉ s.threadsMetadata.map Prod.fst :=
      (lookupThread_none_iff _ _).mp hlnone
    rw [hlist, List.map_append]
    simp only [List.map_cons, List.map_nil]
    refine List.Nodup.append hnd (List.nodup_singleton _) ?_
    intro x hx hx2
    rw [List.mem_singleton] at hx2
    subst hx2
    exact hni hx

theorem writeAll_nodup (recs : List LogLine) :
    ∀ s, (writeAll recs s).1 = none → (s.threadsMetadata.map Prod.fst).Nodup →
    (((writeAll recs s).2).threadsMetadata.map Prod.fst).Nodup := by
  induction recs with
  | nil =>
    intro s _ hnd
    exact hnd
  | cons r rest ih =>
    intro s h hnd
    obtain ⟨s1, hw, heq⟩ := writeAll_cons_ok r rest s h
    rw [heq] at h ⊢
    exact ih s1 h (write_preserves_nodup s r s1 hw hnd)

theorem writeAll_end_tracking (recs : List LogLine) :
    ∀ s, (writeAll recs s).1 = none →
    ∀ tid m2, lookupThread ((writeAll recs s).2).threadsMetadata tid = some m2 →
    (∀ r ∈ recs, r.threadID = tid → r.message ≠ threadLogsEndMarker) →
    (∃ m1, lookupThread s.threadsMetadata tid = some m1
        ∧ m2.logsEndTimestamp = m1.logsEndTimestamp)
    ∨ m2.logsEndTimestamp = zeroGoTime := by
  induction recs with
  | nil =>
    intro s _ tid m2 hl _
    exact Or.inl ⟨m2, hl, rfl⟩
  | cons r rest ih =>
    intro s h tid m2 hl hno
    obtain ⟨s1, hw, heq⟩ := writeAll_cons_ok r rest s h
    rw [heq] at h hl
    have hno2 : ∀ x ∈ rest, x.threadID = tid → x.message ≠ threadLogsEndMarker :=
      fun x hx => hno x (List.mem_cons_of_mem _ hx)
    rcases ih s1 h tid m2 hl hno2 with ⟨m1, hl1, hend⟩ | hz
    · rcases write_ok_char s r s1 hw with ⟨mA, hlA, _, hlist, _⟩ | ⟨hlnone, hmsg, hlist, _⟩
      · by_cases ht : tid = r.threadID
        · subst ht
          rw [hlist, lookupThread_update_self _ _ _ _ hlA] at hl1
          obtain rfl : wlState r mA = m1 := Option.some.inj hl1
          left
          refine ⟨mA, hlA, ?_⟩
          rw [hend]
          exact wlState_end_of_not_end r mA (hno r (List.mem_cons_self _ _) rfl)
        · rw [hlist, lookupThread_update_ne _ _ _ _ ht] at hl1
          exact Or.inl ⟨m1, hl1, hend⟩
      · by_cases ht : tid = r.threadID
        · subst ht
          rw [hlist, lookupThread_append_fresh _ _ _ hlnone] at hl1
          obtain rfl : freshMeta r = m1 := Option.some.inj hl1
          right
          rw [hend]
          rfl
        · rw [hlist, lookupThread_append_single_ne _ _ _ _ ht] at hl1
          exact Or.inl ⟨m1, hl1, hend⟩
    · exact Or.inr hz

theorem writeAll_append_ok (xs ys : List LogLine) :
    ∀ s, (writeAll xs s).1 = none →
    writeAll (xs ++ ys) s = writeAll ys (writeAll xs s).2 := by
  induction xs with
  | nil =>
    intro s _
    rfl
  | cons r rest ih =>
    intro s h
    obtain ⟨s1, hw, heq⟩ := writeAll_cons_ok r rest s h
    rw [heq] at h
    have h2 : writeAll ((r :: rest) ++ ys) s = writeAll (rest ++ ys) s1 := by
      rw [List.cons_append]
      simp only [writeAll]
      rw [hw]
    rw [h2, ih s1 h, heq]

theorem writeAll_head_ok (xs ys : List LogLine) :
    ∀ s, (writeAll (xs ++ ys) s).1 = none → (writeAll xs s).1 = none := by
  induction xs with
  | nil =>
    intro s _
    rfl
  | cons r rest ih =>
    intro s h
    rw [List.cons_append] at h
    obtain ⟨s1, hw, heq⟩ := writeAll_cons_ok r (rest ++ ys) s h
    rw [heq] at h
    have h3 : writeAll (r :: rest) s = writeAll rest s1 := by
      simp only [writeAll]
      rw [hw]
    rw [h3]
    exact ih s1 h

theorem mem_getActiveAux (l : List (String × ThreadFileMetadata))
    (t1 t2 : GoTime) (info : ThreadInfo) (h : info ∈ getActiveAux l t1 t2) :
    ∃ k v, (k, v) ∈ l ∧ info = ⟨v.processId, k, v.logFilepath⟩
      ∧ ¬(t2.toNs < v.logsStartTimestamp.toNs
          ∨ t1.toNs > v.logsEndTimestamp.toNs) := by
  induction l with
  | nil => simp [getActiveAux] at h
  | cons p rest ih =>
    obtain ⟨k, v⟩ := p
    simp only [getActiveAux] at h
    by_cases hc : t2.toNs < v.logsStartTimestamp.toNs
        ∨ t1.toNs > v.logsEndTimestamp.toNs
    · rw [if_pos hc] at h
      obtain ⟨k2, v2, hm, he, hcond⟩ := ih h
      exact ⟨k2, v2, List.mem_cons_of_mem _ hm, he, hcond⟩
    · rw [if_neg hc] at h
      rcases List.mem_cons.mp h with rfl | h2
      · exact ⟨k, v, List.mem_cons_self _ _, rfl, hc⟩
      · obtain ⟨k2, v2, hm, he, hcond⟩ := ih h2
        exact ⟨k2, v2, List.mem_cons_of_mem _ hm, he, hcond⟩

theorem getActiveAux_mem_of (l : List (String × ThreadFileMetadata))
    (t1 t2 : GoTime) (k : String) (v : ThreadFileMetadata) (hm : (k, v) ∈ l)
    (hc : ¬(t2.toNs < v.logsStartTimestamp.toNs
        ∨ t1.toNs > v.logsEndTimestamp.toNs)) :
    (⟨v.processId, k, v.logFilepath⟩ : ThreadInfo) ∈ getActiveAux l t1 t2 := by
  induction l with
  | nil => simp at hm
  | cons p rest ih =>
    obtain ⟨k2, v2⟩ := p
    simp only [getActiveAux]
    rcases List.mem_cons.mp hm with heq | h2
    · rw [Prod.ext_iff] at heq
      obtain ⟨h1, hv⟩ := heq
      simp only at h1 hv
      subst h1
      subst hv
      rw [if_neg hc]
      exact List.mem_cons_self _ _
    · by_cases hc2 : t2.toNs < v2.logsStartTimestamp.toNs
          ∨ t1.toNs > v2.logsEndTimestamp.toNs
      · rw [if_pos hc2]
        exact ih h2
      · rw [if_neg hc2]
        exact List.mem_cons_of_mem _ (ih h2)

/-- Claim C6: for a thread of the tracker, `GetActiveThreadCountBetweenInterval`
returns the segment iff its interval `[logsStartTimestamp, logsEndTimestamp]`
overlaps `[t1, t2]`: it is excluded exactly when `t2` is before the segment's
start or `t1` is after the segment's end, so a segment touching the range at a
single endpoint counts as active. -/
theorem active_query_iff_overlap (slw : SyncLogWriter) (t1 t2 : GoTime)
    (tid : String) (m : ThreadFileMetadata)
    (hnd : (slw.threadsMetadata.map Prod.fst).Nodup)
    (hmem : (tid, m) ∈ slw.threadsMetadata) :
    (∃ info ∈ slw.GetActiveThreadCountBetweenInterval t1 t2, info.ThreadId = tid)
      ↔ ¬(t2.toNs < m.logsStartTimestamp.toNs
          ∨ t1.toNs > m.logsEndTimestamp.toNs) := by
  constructor
  · rintro ⟨info, hi, hid⟩
    obtain ⟨k, v, hm, rfl, hc⟩ := mem_getActiveAux _ t1 t2 info hi
    have hk : k = tid := hid
    subst hk
    have hv : v = m := by
      have h1 := lookupThread_eq_of_mem _ _ _ hnd hm
      have h2 := lookupThread_eq_of_mem _ _ _ hnd hmem
      exact Option.some.inj (h1.symm.trans h2)
    rw [← hv]
    exact hc
  · intro hc
    exact ⟨⟨m.processId, tid, m.logFilepath⟩,
      getActiveAux_mem_of _ t1 t2 tid m hmem hc, rfl⟩

/-- Concrete instance of `active_query_iff_overlap`: the segment
`[10:00:00, 10:00:05]` is returned for the touching range
`[10:00:05, 10:00:10]`. -/
theorem active_query_iff_overlap_witness :
    (c6Writer.threadsMetadata.map Prod.fst).Nodup
    ∧ ("t6", c6Meta) ∈ c6Writer.threadsMetadata
    ∧ (∃ info ∈ c6Writer.GetActiveThreadCountBetweenInterval
          ⟨2020, 8, 9, 10, 0, 5, 0⟩ ⟨2020, 8, 9, 10, 0, 10, 0⟩,
        info.ThreadId = "t6") := by
  refine ⟨by decide, by decide, ?_⟩
  exact (active_query_iff_overlap c6Writer ⟨2020, 8, 9, 10, 0, 5, 0⟩
    ⟨2020, 8, 9, 10, 0, 10, 0⟩ "t6" c6Meta (by decide) (by decide)).mpr (by decide)

theorem foldl_add_eq_sum {M : Type} [AddCommMonoid M] {α : Type} (f : α → M)
    (l : List α) : ∀ a : M, l.foldl (fun acc p => acc + f p) a = a + (l.map f).sum := by
  induction l with
  | nil =>
    intro a
    simp
  | cons p rest ih =>
    intro a
    simp only [List.foldl_cons, List.map_cons, List.sum_cons, ih (a + f p)]
    rw [add_assoc]

theorem aggRuntime_eq_sum (l : List (String × ThreadFileMetadata)) :
    aggRuntime l = (l.map fun p => runtimeMs p.2).sum := by
  unfold aggRuntime
  rw [foldl_add_eq_sum (fun p => runtimeMs p.2) l 0, zero_add]

theorem goStdSum_eq_sum (l : List (String × ThreadFileMetadata)) :
    goStdSum l
      = (l.map fun p => (goAvgRuntime l - (runtimeMs p.2 : ℚ)) ^ 2).sum := by
  unfold goStdSum
  rw [foldl_add_eq_sum (fun p => (goAvgRuntime l - (runtimeMs p.2 : ℚ)) ^ 2) l 0,
    zero_add]

theorem lookupThread_split (l : List (String × ThreadFileMetadata)) (tid : String)
    (m : ThreadFileMetadata) (h : lookupThread l tid = some m) :
    ∃ l1 l2, l = l1 ++ (tid, m) :: l2 := by
  induction l with
  | nil => simp [lookupThread] at h
  | cons p rest ih =>
    obtain ⟨k, v⟩ := p
    by_cases hk : k = tid
    · subst hk
      simp only [lookupThread, if_pos rfl] at h
      obtain rfl : v = m := Option.some.inj h
      exact ⟨[], rest, rfl⟩
    · simp only [lookupThread, if_neg hk] at h
      obtain ⟨l1, l2, heq⟩ := ih h
      exact ⟨(k, v) :: l1, l2, by rw [heq]; rfl⟩

theorem tdiv_neg_of_le_neg (d : Int) (h : d ≤ -1000000) :
    Int.tdiv d 1000000 < 0 := by
  have h1 : d = -(-d) := by ring
  rw [h1, Int.neg_tdiv]
  have h2 : (0 : Int) ≤ -d := by linarith
  rw [Int.tdiv_eq_ediv h2 (by norm_num)]
  have h4 : (1 : Int) ≤ (-d) / 1000000 := by
    rw [Int.le_ediv_iff_mul_le (by norm_num : (0 : Int) < 1000000)]
    linarith
  linarith

/-- Claim C10: a thread whose records never include the end marker keeps the
zero `time.Time` as `logsEndTimestamp`; consequently the active-thread query
excludes it for every range whose start is after the zero instant, and the
runtime-statistics query feeds its runtime — the (saturating) subtraction of
`logsStartTimestamp` from the zero instant, negative for any start at least
one millisecond after the zero instant — into the aggregated sum that the
mean (and standard deviation) divide. -/
theorem open_segment_behavior (recs : List LogLine) (tid : String)
    (m : ThreadFileMetadata)
    (hok : (writeAll recs initWriter).1 = none)
    (hl : lookupThread ((writeAll recs initWriter).2).threadsMetadata tid = some m)
    (hnoend : ∀ r ∈ recs, r.threadID = tid → r.message ≠ threadLogsEndMarker) :
    m.logsEndTimestamp = zeroGoTime
    ∧ (∀ t1 t2 : GoTime, zeroGoTime.toNs < t1.toNs →
        ∀ info ∈ ((writeAll recs initWriter).2).GetActiveThreadCountBetweenInterval t1 t2,
          info.ThreadId ≠ tid)
    ∧ runtimeMs m = durationMilliseconds (timeSub zeroGoTime m.logsStartTimestamp)
    ∧ (zeroGoTime.toNs + 1000000 ≤ m.logsStartTimestamp.toNs → runtimeMs m < 0)
    ∧ (∃ l1 l2, ((writeAll recs initWriter).2).threadsMetadata = l1 ++ (tid, m) :: l2
        ∧ aggRuntime ((writeAll recs initWriter).2).threadsMetadata
            = (l1.map fun p => runtimeMs p.2).sum + runtimeMs m
              + (l2.map fun p => runtimeMs p.2).sum
        ∧ ((writeAll recs initWriter).2).GetAvgStdThreadRuntime.1
            = (((aggRuntime ((writeAll recs initWriter).2).threadsMetadata : ℚ)
                / ((((writeAll recs initWriter).2).threadsMetadata.length : ℚ))) : ℝ)) := by
  have hend : m.logsEndTimestamp = zeroGoTime := by
    rcases writeAll_end_tracking recs initWriter hok tid m hl hnoend with
      ⟨m1, hl1, _⟩ | hz
    · exact Option.noConfusion hl1
    · exact hz
  have hnd : ((((writeAll recs initWriter).2).threadsMetadata.map Prod.fst)).Nodup :=
    writeAll_nodup recs initWriter hok List.nodup_nil
  refine ⟨hend, ?_, ?_, ?_, ?_⟩
  · intro t1 t2 ht info hi heq
    obtain ⟨k, v, hm, rfl, hc⟩ := mem_getActiveAux _ t1 t2 info hi
    have hk : k = tid := heq
    subst hk
    have hv : v = m :=
      Option.some.inj ((lookupThread_eq_of_mem _ _ _ hnd hm).symm.trans hl)
    apply hc
    right
    rw [hv, hend]
    exact ht
  · unfold runtimeMs
    rw [hend]
  · intro hst
    unfold runtimeMs durationMilliseconds
    rw [hend]
    unfold timeSub
    have hd : zeroGoTime.toNs - m.logsStartTimestamp.toNs ≤ -1000000 := by linarith
    have hmax : ¬(zeroGoTime.toNs - m.logsStartTimestamp.toNs > maxInt64) := by
      unfold maxInt64
      linarith
    rw [if_neg hmax]
    by_cases hmin : zeroGoTime.toNs - m.logsStartTimestamp.toNs < minInt64
    · rw [if_pos hmin]
      decide
    · rw [if_neg hmin]
      exact tdiv_neg_of_le_neg _ hd
  · obtain ⟨l1, l2, hsplit⟩ := lookupThread_split _ tid m hl
    refine ⟨l1, l2, hsplit, ?_, ?_⟩
    · rw [hsplit, aggRuntime_eq_sum, List.map_append, List.sum_append, List.map_cons,
        List.sum_cons, add_assoc]
    · show ((goAvgRuntime ((writeAll recs initWriter).2).threadsMetadata : ℚ) : ℝ) = _
      unfold goAvgRuntime
      push_cast
      rfl

/-- Concrete instance of `open_segment_behavior` for `c10Recs`. -/
theorem open_segment_behavior_witness :
    ((writeAll c10Recs initWriter).1 = none
      ∧ lookupThread ((writeAll c10Recs initWriter).2).threadsMetadata "tz"
          = some c10Meta
      ∧ (∀ r ∈ c10Recs, r.threadID = "tz" → r.message ≠ threadLogsEndMarker)
      ∧ zeroGoTime.toNs + 1000000 ≤ c10Meta.logsStartTimestamp.toNs)
    ∧ (c10Meta.logsEndTimestamp = zeroGoTime
      ∧ (∀ t1 t2 : GoTime, zeroGoTime.toNs < t1.toNs →
          ∀ info ∈ ((writeAll c10Recs initWriter).2).GetActiveThreadCountBetweenInterval t1 t2,
            info.ThreadId ≠ "tz")
      ∧ runtimeMs c10Meta
          = durationMilliseconds (timeSub zeroGoTime c10Meta.logsStartTimestamp)
      ∧ (zeroGoTime.toNs + 1000000 ≤ c10Meta.logsStartTimestamp.toNs →
          runtimeMs c10Meta < 0)
      ∧ (∃ l1 l2, ((writeAll c10Recs initWriter).2).threadsMetadata
            = l1 ++ ("tz", c10Meta) :: l2
          ∧ aggRuntime ((writeAll c10Recs initWriter).2).threadsMetadata
              = (l1.map fun p => runtimeMs p.2).sum + runtimeMs c10Meta
                + (l2.map fun p => runtimeMs p.2).sum
          ∧ ((writeAll c10Recs initWriter).2).GetAvgStdThreadRuntime.1
              = (((aggRuntime ((writeAll c10Recs initWriter).2).threadsMetadata : ℚ)
                  / ((((writeAll c10Recs initWriter).2).threadsMetadata.length : ℚ))) : ℝ))) :=
  ⟨⟨by decide, by decide, by decide, by decide⟩,
    open_segment_behavior c10Recs "tz" c10Meta (by decide) (by decide) (by decide)⟩

theorem maxConcAux_fst (l : List (String × ThreadFileMetadata)) :
    ∀ (memo : List (String × Nat)) (maxC : Nat) (epoch : GoTime),
    (maxConcAux l memo maxC epoch).1 = max maxC (memoMax memo) := by
  intro memo
  induction memo with
  | nil =>
    intro maxC epoch
    simp [maxConcAux, memoMax]
  | cons p rest ih =>
    intro maxC epoch
    obtain ⟨tid, c⟩ := p
    simp only [maxConcAux, memoMax, List.foldr_cons]
    by_cases h : c > maxC
    · rw [if_pos h, ih]
      show max c (memoMax rest) = _
      unfold memoMax
      omega
    · rw [if_neg h, ih]
      show max maxC (memoMax rest) = _
      unfold memoMax
      omega

theorem maxConcAux_snd (l : List (String × ThreadFileMetadata)) :
    ∀ (memo : List (String × Nat)) (maxC : Nat) (epoch : GoTime),
    ((maxConcAux l memo maxC epoch).2 = epoch
        ∧ (maxConcAux l memo maxC epoch).1 = maxC)
    ∨ ∃ q ∈ memo, q.2 = (maxConcAux l memo maxC epoch).1
        ∧ (maxConcAux l memo maxC epoch).2
            = ((lookupThread l q.1).map ThreadFileMetadata.logsStartTimestamp).getD
                zeroGoTime := by
  intro memo
  induction memo with
  | nil =>
    intro maxC epoch
    exact Or.inl ⟨rfl, rfl⟩
  | cons p rest ih =>
    intro maxC epoch
    obtain ⟨tid, c⟩ := p
    simp only [maxConcAux]
    by_cases h : c > maxC
    · rw [if_pos h]
      rcases ih c (((lookupThread l tid).map
          ThreadFileMetadata.logsStartTimestamp).getD zeroGoTime) with ⟨he, hm⟩ | ⟨q, hq, h1, h2⟩
      · exact Or.inr ⟨(tid, c), List.mem_cons_self _ _, hm.symm, he⟩
      · exact Or.inr ⟨q, List.mem_cons_of_mem _ hq, h1, h2⟩
    · rw [if_neg h]
      rcases ih maxC epoch with hl | ⟨q, hq, h1, h2⟩
      · exact Or.inl hl
      · exact Or.inr ⟨q, List.mem_cons_of_mem _ hq, h1, h2⟩

theorem concCount_self_pos (l : List (String × ThreadFileMetadata)) (tid : String)
    (m : ThreadFileMetadata) (hmem : (tid, m) ∈ l) : 0 < concCount l m := by
  unfold concCount
  rw [List.countP_pos_iff]
  refine ⟨(tid, m), hmem, ?_⟩
  simp only [decide_eq_true_eq]
  exact Or.inl rfl

theorem le_foldr_max (xs : List Nat) (a : Nat) (h : a ∈ xs) :
    a ≤ xs.foldr max 0 := by
  induction xs with
  | nil => simp at h
  | cons x rest ih =>
    rcases List.mem_cons.mp h with rfl | h2
    · simp only [List.foldr_cons]
      exact le_max_left _ _
    · simp only [List.foldr_cons]
      exact le_trans (ih h2) (le_max_right _ _)

theorem memoMax_memoList (l : List (String × ThreadFileMetadata)) :
    memoMax (memoList l) = (l.map fun p => concCount l p.2).foldr max 0 := by
  unfold memoMax memoList
  rw [List.foldr_map, List.foldr_map]

/-- Claim C5: `GetMaxConcurrencyAndEpoch` assigns every thread A the count of
threads B (A itself included, `concCond`: equal start, or start strictly
inside `(A.start, A.end)`), returns the maximum count over all A, and, when
at least one thread exists, an epoch equal to the `logsStartTimestamp` of
some thread achieving that maximum. -/
theorem max_concurrency_spec (slw : SyncLogWriter)
    (hnd : (slw.threadsMetadata.map Prod.fst).Nodup)
    (hne : slw.threadsMetadata ≠ []) :
    (slw.GetMaxConcurrencyAndEpoch).1
      = (slw.threadsMetadata.map fun p => concCount slw.threadsMetadata p.2).foldr max 0
    ∧ ∃ q ∈ slw.threadsMetadata,
        concCount slw.threadsMetadata q.2 = (slw.GetMaxConcurrencyAndEpoch).1
        ∧ (slw.GetMaxConcurrencyAndEpoch).2 = q.2.logsStartTimestamp := by
  have hfst : (slw.GetMaxConcurrencyAndEpoch).1
      = (slw.threadsMetadata.map fun p => concCount slw.threadsMetadata p.2).foldr max 0 := by
    show (maxConcAux slw.threadsMetadata (memoList slw.threadsMetadata) 0 zeroGoTime).1 = _
    rw [maxConcAux_fst, memoMax_memoList]
    exact Nat.zero_max _
  refine ⟨hfst, ?_⟩
  rcases maxConcAux_snd slw.threadsMetadata (memoList slw.threadsMetadata) 0 zeroGoTime
    with ⟨_, hm⟩ | ⟨q, hq, h1, h2⟩
  · exfalso
    obtain ⟨p, hp⟩ := List.exists_mem_of_ne_nil slw.threadsMetadata hne
    have hpos : 0 < concCount slw.threadsMetadata p.2 := by
      obtain ⟨k, v⟩ := p
      exact concCount_self_pos _ k v hp
    have hle : concCount slw.threadsMetadata p.2
        ≤ (slw.threadsMetadata.map fun p => concCount slw.threadsMetadata p.2).foldr max 0 :=
      le_foldr_max _ _ (List.mem_map_of_mem _ hp)
    have hz : (slw.GetMaxConcurrencyAndEpoch).1 = 0 := hm
    rw [hfst] at hz
    omega
  · obtain ⟨p, hp, hpq⟩ := List.mem_map.mp (show q ∈ (slw.threadsMetadata.map
      fun p => (p.1, concCount slw.threadsMetadata p.2)) from hq)
    refine ⟨p, hp, ?_, ?_⟩
    · have : q.2 = concCount slw.threadsMetadata p.2 := by rw [← hpq]
      rw [← this]
      exact h1
    · have hlk : lookupThread slw.threadsMetadata p.1 = some p.2 := by
        obtain ⟨k, v⟩ := p
        exact lookupThread_eq_of_mem _ _ _ hnd hp
      have hq1 : q.1 = p.1 := by rw [← hpq]
      show (maxConcAux slw.threadsMetadata (memoList slw.threadsMetadata) 0 zeroGoTime).2
          = p.2.logsStartTimestamp
      rw [h2, hq1, hlk]
      rfl

/-- Concrete instance of `max_concurrency_spec` on a two-thread tracker. -/
theorem max_concurrency_spec_witness :
    ((c5Writer.threadsMetadata.map Prod.fst).Nodup ∧ c5Writer.threadsMetadata ≠ [])
    ∧ ((c5Writer.GetMaxConcurrencyAndEpoch).1
        = (c5Writer.threadsMetadata.map fun p => concCount c5Writer.threadsMetadata p.2).foldr
            max 0
      ∧ ∃ q ∈ c5Writer.threadsMetadata,
          concCount c5Writer.threadsMetadata q.2 = (c5Writer.GetMaxConcurrencyAndEpoch).1
          ∧ (c5Writer.GetMaxConcurrencyAndEpoch).2 = q.2.logsStartTimestamp) :=
  ⟨⟨by decide, by decide⟩, max_concurrency_spec c5Writer (by decide) (by decide)⟩

/-- Claim C8: `GetAvgStdThreadRuntime` returns the arithmetic mean and the
population standard deviation (dividing by `n`) of the millisecond runtimes
`logsEndTimestamp - logsStartTimestamp` over all segments of the tracker. -/
theorem avg_std_is_mean_and_popstd (slw : SyncLogWriter)
    (_hne : slw.threadsMetadata ≠ []) :
    slw.GetAvgStdThreadRuntime
      = (((specMean (slw.threadsMetadata.map fun p => runtimeMs p.2) : ℚ) : ℝ),
          specPopStd (slw.threadsMetadata.map fun p => runtimeMs p.2)) := by
  have hlen : ((slw.threadsMetadata.map fun p => runtimeMs p.2).length : ℚ)
      = (slw.threadsMetadata.length : ℚ) := by
    rw [List.length_map]
  have hmean : goAvgRuntime slw.threadsMetadata
      = specMean (slw.threadsMetadata.map fun p => runtimeMs p.2) := by
    unfold goAvgRuntime specMean
    rw [aggRuntime_eq_sum, hlen]
  have hstd : goStdSum slw.threadsMetadata
      = ((slw.threadsMetadata.map fun p => runtimeMs p.2).map
          (fun x : Int => (specMean (slw.threadsMetadata.map fun p => runtimeMs p.2)
            - (x : ℚ)) ^ 2)).sum := by
    rw [goStdSum_eq_sum, hmean, List.map_map]
    rfl
  have hvar : goStdSum slw.threadsMetadata / (slw.threadsMetadata.length : ℚ)
      = specPopVar (slw.threadsMetadata.map fun p => runtimeMs p.2) := by
    unfold specPopVar
    rw [hstd, hlen]
  unfold SyncLogWriter.GetAvgStdThreadRuntime specPopStd
  rw [Prod.mk.injEq]
  refine ⟨by rw [hmean], ?_⟩
  congr 1
  rw [← hvar]
  push_cast
  rfl

/-- Concrete instance of `avg_std_is_mean_and_popstd`: on runtimes
`[100, 200, 300]` the mean is 200 and the standard deviation is
`√(20000/3) ≈ 81.65` (strictly between 81.64 and 81.65). -/
theorem avg_std_is_mean_and_popstd_witness :
    c8Writer.threadsMetadata ≠ []
    ∧ c8Writer.GetAvgStdThreadRuntime
        = (((specMean ((100 : Int) :: 200 :: 300 :: []) : ℚ) : ℝ),
            specPopStd ((100 : Int) :: 200 :: 300 :: []))
    ∧ ((specMean ((100 : Int) :: 200 :: 300 :: []) : ℚ) : ℝ) = 200
    ∧ specPopStd ((100 : Int) :: 200 :: 300 :: []) = Real.sqrt (20000 / 3)
    ∧ 81.64 < specPopStd ((100 : Int) :: 200 :: 300 :: [])
    ∧ specPopStd ((100 : Int) :: 200 :: 300 :: []) < 81.65 := by
  have hmap : (c8Writer.threadsMetadata.map fun p => runtimeMs p.2)
      = (100 : Int) :: 200 :: 300 :: [] := by decide
  have hv : specPopVar ((100 : Int) :: 200 :: 300 :: []) = 20000 / 3 := by
    unfold specPopVar specMean
    norm_num
  have hs : specPopStd ((100 : Int) :: 200 :: 300 :: []) = Real.sqrt (20000 / 3) := by
    unfold specPopStd
    rw [hv]
    norm_num
  refine ⟨by decide, ?_, ?_, hs, ?_, ?_⟩
  · have h := avg_std_is_mean_and_popstd c8Writer (by decide)
    rw [hmap] at h
    exact h
  · unfold specMean
    norm_num
  · rw [hs]
    rw [show (81.64 : ℝ) = ((81.64 : ℚ) : ℝ) by norm_num]
    rw [Real.lt_sqrt (by positivity)]
    norm_num
  · rw [hs]
    rw [Real.sqrt_lt' (by norm_num)]
    norm_num

/-- Claim C4 counterexample: on `c4BadRecs` every write succeeds and each
thread's first record is its start marker, but the two distinct threads share
one backing file, so thread `c`'s store does not equal its own rendered
records (it also holds thread `b-c`'s record). -/
theorem demux_path_collision :
    (writeAll c4BadRecs initWriter).1 = none
    ∧ (∀ r ∈ c4BadRecs, c4BadRecs.find? (fun x => x.threadID == r.threadID) = some r →
        r.message = threadLogsStartMarker)
    ∧ lookupThread ((writeAll c4BadRecs initWriter).2).threadsMetadata "c"
        = some ⟨"a-b", ⟨2020, 1, 1, 0, 0, 0, 0⟩, zeroGoTime, true, "mergedlogs/a-b-c.log"⟩
    ∧ lookupThread ((writeAll c4BadRecs initWriter).2).threadsMetadata "b-c"
        = some ⟨"a", ⟨2020, 1, 1, 0, 0, 1, 0⟩, zeroGoTime, true, "mergedlogs/a-b-c.log"⟩
    ∧ ((writeAll c4BadRecs initWriter).2).files "mergedlogs/a-b-c.log"
        ≠ (c4BadRecs.filter fun r => decide (r.threadID = "c")).map LogLine.render := by
  exact ⟨by decide, by decide, by decide, by decide, by decide⟩

theorem writeAll_single (r : LogLine) (s : SyncLogWriter) :
    writeAll [r] s = s.Write r := by
  cases hw : s.Write r with
  | mk e s2 =>
    simp only [writeAll]
    rw [hw]
    cases e
    · rfl
    · rfl

theorem pathInjective_of_pairwise (s : SyncLogWriter)
    (hp : s.threadsMetadata.Pairwise
      (fun a b => a.2.logFilepath ≠ b.2.logFilepath)) :
    pathInjective s := by
  intro t1 t2 m1 m2 h1 h2 hne
  have hm1 := lookupThread_mem _ _ _ h1
  have hm2 := lookupThread_mem _ _ _ h2
  have hne2 : ((t1, m1) : String × ThreadFileMetadata) ≠ (t2, m2) := by
    intro h
    exact hne (congrArg Prod.fst h)
  have hsym : Symmetric (fun a b : String × ThreadFileMetadata =>
      a.2.logFilepath ≠ b.2.logFilepath) := by
    intro a b h e
    exact h e.symm
  exact List.Pairwise.forall hsym hp hm1 hm2 hne2

theorem appendAt_eq (fs : String → List String) (path line p : String)
    (h : p = path) : appendAt fs path line p = fs p ++ [line] := by
  unfold appendAt
  rw [if_pos h]

theorem appendAt_ne (fs : String → List String) (path line p : String)
    (h : p ≠ path) : appendAt fs path line p = fs p := by
  unfold appendAt
  rw [if_neg h]

theorem writeAll_demux_aux : ∀ (recs : List LogLine),
    (writeAll recs initWriter).1 = none →
    pathInjective (writeAll recs initWriter).2 →
    ((∀ tid m,
        lookupThread ((writeAll recs initWriter).2).threadsMetadata tid = some m →
        ((writeAll recs initWriter).2).files m.logFilepath
          = (recs.filter fun r => decide (r.threadID = tid)).map LogLine.render)
      ∧ (∀ p : String,
          (∀ tid m,
            lookupThread ((writeAll recs initWriter).2).threadsMetadata tid = some m →
            m.logFilepath ≠ p) →
          ((writeAll recs initWriter).2).files p = [])) := by
  intro recs
  induction recs using List.reverseRecOn with
  | nil =>
    intro _ _
    constructor
    · intro tid m hl
      exact Option.noConfusion hl
    · intro p _
      rfl
  | append_singleton xs r ih =>
    intro hok hinj
    have hok_xs : (writeAll xs initWriter).1 = none :=
      writeAll_head_ok xs [r] initWriter hok
    have happ := writeAll_append_ok xs [r] initWriter hok_xs
    have hfinal : writeAll (xs ++ [r]) initWriter
        = (writeAll xs initWriter).2.Write r := by
      rw [happ, writeAll_single]
    have hw : (writeAll xs initWriter).2.Write r
        = (none, (writeAll (xs ++ [r]) initWriter).2) := by
      rw [← hfinal, Prod.ext_iff]
      exact ⟨hok, rfl⟩
    have hinj1 : pathInjective (writeAll xs initWriter).2 := by
      intro t1 t2 m1 m2 h1 h2 hne
      obtain ⟨m1b, hl1b, hp1, _, _, _⟩ := write_preserves_some _ r _ hw t1 m1 h1
      obtain ⟨m2b, hl2b, hp2, _, _, _⟩ := write_preserves_some _ r _ hw t2 m2 h2
      have h3 := hinj t1 t2 m1b m2b hl1b hl2b hne
      rw [hp1, hp2] at h3
      exact h3
    obtain ⟨ihA, ihB⟩ := ih hok_xs hinj1
    rcases write_ok_char _ r _ hw with
      ⟨mA, hlA, hfdA, hlist, hfiles⟩ | ⟨hlnone, hmsg, hlist, hfiles⟩
    · have hlup : lookupThread ((writeAll (xs ++ [r]) initWriter).2).threadsMetadata
          r.threadID = some (wlState r mA) := by
        rw [hlist]
        exact lookupThread_update_self _ _ _ _ hlA
      constructor
      · intro tid m hl
        by_cases htid : tid = r.threadID
        · subst htid
          obtain rfl : m = wlState r mA := Option.some.inj (hl.symm.trans hlup)
          rw [hfiles, appendAt_eq _ _ _ _ (wlState_logFilepath r mA),
            wlState_logFilepath, ihA r.threadID mA hlA, List.filter_append,
            List.map_append]
          congr 1
          simp
        · have hl1 : lookupThread (writeAll xs initWriter).2.threadsMetadata tid
              = some m := by
            rw [hlist, lookupThread_update_ne _ _ _ _ htid] at hl
            exact hl
          have hpne : m.logFilepath ≠ mA.logFilepath := by
            have h3 := hinj tid r.threadID m (wlState r mA) hl hlup htid
            rw [wlState_logFilepath] at h3
            exact h3
          rw [hfiles, appendAt_ne _ _ _ _ hpne, ihA tid m hl1, List.filter_append]
          have hfr : [r].filter (fun x => decide (x.threadID = tid)) = [] := by
            simp [Ne.symm htid]
          rw [hfr, List.append_nil]
      · intro p hp
        have hpne : p ≠ mA.logFilepath := by
          have h3 := hp r.threadID (wlState r mA) hlup
          rw [wlState_logFilepath] at h3
          exact fun e => h3 e.symm
        rw [hfiles, appendAt_ne _ _ _ _ hpne]
        apply ihB
        intro tid m hl1
        obtain ⟨m2, hl2, hp2, _, _, _⟩ := write_preserves_some _ r _ hw tid m hl1
        have h4 := hp tid m2 hl2
        rw [hp2] at h4
        exact h4
    · have hlup : lookupThread ((writeAll (xs ++ [r]) initWriter).2).threadsMetadata
          r.threadID = some (freshMeta r) := by
        rw [hlist]
        exact lookupThread_append_fresh _ _ _ hlnone
      have hxs_no : ∀ x ∈ xs, ¬x.threadID = r.threadID := by
        intro x hx heq
        have h5 := writeAll_thread_exists xs initWriter hok_xs x hx
        rw [heq] at h5
        exact h5 hlnone
      constructor
      · intro tid m hl
        by_cases htid : tid = r.threadID
        · subst htid
          obtain rfl : m = freshMeta r := Option.some.inj (hl.symm.trans hlup)
          rw [hfiles, appendAt_eq _ _ _ _ (freshMeta_logFilepath r)]
          have hempty : (writeAll xs initWriter).2.files (freshMeta r).logFilepath
              = [] := by
            apply ihB
            intro tid2 m2 hl2
            obtain ⟨m2b, hl2b, hp2b, _, _, _⟩ :=
              write_preserves_some _ r _ hw tid2 m2 hl2
            have hne2 : tid2 ≠ r.threadID := by
              rintro rfl
              rw [hlnone] at hl2
              exact Option.noConfusion hl2
            have h6 := hinj tid2 r.threadID m2b (freshMeta r) hl2b hlup hne2
            rw [hp2b] at h6
            exact h6
          rw [hempty, List.filter_append]
          have hfxs : xs.filter (fun x => decide (x.threadID = r.threadID)) = [] := by
            rw [List.filter_eq_nil_iff]
            intro a ha
            simp [hxs_no a ha]
          rw [hfxs]
          simp
        · have hl1 : lookupThread (writeAll xs initWriter).2.threadsMetadata tid
              = some m := by
            rw [hlist, lookupThread_append_single_ne _ _ _ _ htid] at hl
            exact hl
          have hpne : m.logFilepath ≠ mkLogFilePath r.processID r.threadID := by
            have h3 := hinj tid r.threadID m (freshMeta r) hl hlup htid
            rw [freshMeta_logFilepath] at h3
            exact h3
          rw [hfiles, appendAt_ne _ _ _ _ hpne, ihA tid m hl1, List.filter_append]
          have hfr : [r].filter (fun x => decide (x.threadID = tid)) = [] := by
            simp [Ne.symm htid]
          rw [hfr, List.append_nil]
      · intro p hp
        have hpne : p ≠ mkLogFilePath r.processID r.threadID := by
          have h3 := hp r.threadID (freshMeta r) hlup
          rw [freshMeta_logFilepath] at h3
          exact fun e => h3 e.symm
        rw [hfiles, appendAt_ne _ _ _ _ hpne]
        apply ihB
        intro tid m hl1
        obtain ⟨m2, hl2, hp2, _, _, _⟩ := write_preserves_some _ r _ hw tid m hl1
        have h4 := hp tid m2 hl2
        rw [hp2] at h4
        exact h4

/-- Claim C4 (amended): for a record stream written to the tracker in arrival
order, where every write succeeds, each thread's first record is a
start-marker record, and distinct threads' rendered log file paths are
distinct, each thread's backing store holds exactly the rendered records
whose threadId equals that thread's id, in their arrival order, and no
records of any other thread. -/
theorem demux_correct (recs : List LogLine)
    (hok : (writeAll recs initWriter).1 = none)
    (_hstart : ∀ r ∈ recs, recs.find? (fun x => x.threadID == r.threadID) = some r →
        r.message = threadLogsStartMarker)
    (hinj : ((writeAll recs initWriter).2).threadsMetadata.Pairwise
        (fun a b => a.2.logFilepath ≠ b.2.logFilepath)) :
    ∀ tid m, lookupThread ((writeAll recs initWriter).2).threadsMetadata tid = some m →
      ((writeAll recs initWriter).2).files m.logFilepath
        = (recs.filter fun r => decide (r.threadID = tid)).map LogLine.render :=
  (writeAll_demux_aux recs hok (pathInjective_of_pairwise _ hinj)).1

/-- Concrete instance of `demux_correct` on the interleaved stream `c4Recs`. -/
theorem demux_correct_witness :
    ((writeAll c4Recs initWriter).1 = none
      ∧ (∀ r ∈ c4Recs, c4Recs.find? (fun x => x.threadID == r.threadID) = some r →
          r.message = threadLogsStartMarker)
      ∧ ((writeAll c4Recs initWriter).2).threadsMetadata.Pairwise
          (fun a b => a.2.logFilepath ≠ b.2.logFilepath))
    ∧ (∀ tid m,
        lookupThread ((writeAll c4Recs initWriter).2).threadsMetadata tid = some m →
        ((writeAll c4Recs initWriter).2).files m.logFilepath
          = (c4Recs.filter fun r => decide (r.threadID = tid)).map LogLine.render) :=
  ⟨⟨by decide, by decide, by decide⟩,
    demux_correct c4Recs (by decide) (by decide) (by decide)⟩
